import Mathlib

set_option autoImplicit false

namespace Inngest

/-- Run status enumeration, from the repository's current `RunStatusSchema`
(`src/api/types.ts`): the enum members `Running`, `Completed`, `Failed`,
`Cancelled` plus `Queued`, whose validation support the changelog records
(v0.10.1 "Support for `Queued` run statuses across validation, filtering,
and display") and the type tests exercise (`InngestRunSchema` must accept
`status: 'Queued'`); the `list` command likewise accepts `Queued` in its
`validStatuses`. -/
inductive RunStatus where
  | Running
  | Queued
  | Completed
  | Failed
  | Cancelled
  deriving DecidableEq, Repr

/-- The wire string of a run status (statuses travel as strings in JS and all
comparisons in the source are string comparisons). -/
def statusStr : RunStatus → String
  | .Running => "Running"
  | .Queued => "Queued"
  | .Completed => "Completed"
  | .Failed => "Failed"
  | .Cancelled => "Cancelled"

/-- A validated run record (`InngestRunSchema` in `src/api/types.ts`) together
with the derived `function_name` enrichment field that `listRuns` attaches
during materialization (absent on raw records). `output` is an opaque payload
and is modelled as an optional string. -/
structure InngestRun where
  run_id : String
  status : RunStatus
  run_started_at : String := ""
  ended_at : Option String := none
  output : Option String := none
  event_id : Option String := none
  function_id : Option String := none
  function_version : Option Nat := none
  function_name : Option String := none
  deriving DecidableEq, Repr

/-- The projection of one upstream event that the discovery engine inspects:
`event.data?.run_id` and `event.data?.function_id` when `data` is an object
and those fields are strings. Events lacking an object `data` payload, or
whose fields are not strings, project to `none`. -/
structure DiscoveryEvent where
  runId? : Option String := none
  functionId? : Option String := none
  deriving DecidableEq, Repr

/-- JS truthiness of an optional string: `undefined` and `""` are falsy. -/
def strTruthy : Option String → Bool
  | some s => s != ""
  | none => false

/-- JS truthiness of an optional boolean: `undefined` and `false` are falsy. -/
def boolTruthy : Option Bool → Bool
  | some b => b
  | none => false

/-- JS `o || d` for an optional number: `0` and `undefined` fall back to `d`. -/
def numOr (o : Option Nat) (d : Nat) : Nat :=
  match o with
  | some n => if n = 0 then d else n
  | none => d

/-- JS `String.prototype.endsWith`, modelled as a suffix test on the
character list. -/
def strEndsWith (s sfx : String) : Bool :=
  sfx.toList.isSuffixOf s.toList

/-- JS `String.prototype.includes`, modelled as an infix test on the
character list. -/
def strIncludes (hay pat : String) : Bool :=
  decide (List.IsInfix pat.toList hay.toList)

/-- Character class of `validateRunId` (`src/utils/config.ts`): membership in the character
class `[0-9A-HJKMNP-TV-Z]` (ULID alphabet, excluding I, L, O, U). -/
def isUlidChar (c : Char) : Bool :=
  ('0' ≤ c && c ≤ '9') || ('A' ≤ c && c ≤ 'H') || c == 'J' || c == 'K' ||
    c == 'M' || c == 'N' || ('P' ≤ c && c ≤ 'T') || ('V' ≤ c && c ≤ 'Z')

/-- The `validateRunId` predicate from `src/utils/config.ts`: the canonical 26-character
run-ID shape `/^[0-9A-HJKMNP-TV-Z]{26}$/`. -/
def validateRunId (runId : String) : Bool :=
  runId.length = 26 && runId.toList.all isUlidChar

/-- A JS `Map<string, string>` modelled as an insertion-ordered association
list with unique keys. `jsMapSet` is `Map.prototype.set`: it overwrites the
value in place when the key is present, otherwise appends the new entry. -/
def jsMapSet : List (String × String) → String → String → List (String × String)
  | [], k, v => [(k, v)]
  | p :: rest, k, v => if p.1 = k then (k, v) :: rest else p :: jsMapSet rest k v

/-- JS `Map.prototype.get` on the association-list model. -/
def jsMapGet : List (String × String) → String → Option String
  | [], _ => none
  | p :: rest, k => if p.1 = k then some p.2 else jsMapGet rest k

/-- First pass of `listRuns` (`src/api/client.ts`): walk all merged events and
record `run_id -> function_id` for every event carrying both fields. The JS
`Map.set` call overwrites, so a later event replaces an earlier one for the
same `run_id`. -/
def buildFunctionNames (events : List DiscoveryEvent) : List (String × String) :=
  events.foldl
    (fun m e =>
      match e.runId?, e.functionId? with
      | some rid, some fid => jsMapSet m rid fid
      | _, _ => m)
    []

/-- The function id attached to the last event in the stream that references
`rid` and carries a function id; `none` when no such event exists. This is
the value `Map.get` returns after the first pass, by the overwrite semantics
of `Map.set`. -/
def lastFunctionIdFor (events : List DiscoveryEvent) (rid : String) : Option String :=
  events.foldl
    (fun acc e =>
      match e.runId?, e.functionId? with
      | some r, some fid => if r = rid then some fid else acc
      | _, _ => acc)
    none

/-- The post-materialization status filter of `listRuns`:
`if (options.status && enrichedRun.status !== options.status) continue`.
An absent or empty (falsy) `options.status` disables the filter. -/
def statusFilterPass (optStatus : Option String) (r : InngestRun) : Bool :=
  if strTruthy optStatus then statusStr r.status == optStatus.getD "" else true

/-- The post-materialization function filter of `listRuns`: exact
`function_id` equality OR substring containment on the enriched
`function_name` (`enrichedRun.function_name?.includes(options.function_id)`;
an absent `function_name` makes the optional chain falsy). -/
def functionFilterPass (optFn : Option String) (r : InngestRun) : Bool :=
  if strTruthy optFn then
    (r.function_id == some (optFn.getD "")) ||
      (match r.function_name with
       | some n => strIncludes n (optFn.getD "")
       | none => false)
  else true

/-- The options object accepted by `InngestClient.listRuns`. -/
structure ListOptions where
  status : Option String := none
  function_id : Option String := none
  cursor : Option String := none
  limit : Option Nat := none
  after : Option String := none
  before : Option String := none
  hours : Option Nat := none
  deriving DecidableEq, Repr

/-- Response metadata attached by `listRuns` (`fetched_at` comes from the
wall clock, passed in as the `now` parameter of `listRunsModel`). -/
structure ResponseMetadata where
  fetched_at : String
  cached_until : Option String
  deriving DecidableEq, Repr

/-- The shape of `ListRunsResponseSchema`: a data array plus optional
`has_more`, `cursor` and `metadata` fields. -/
structure ListRunsResponse where
  data : List InngestRun
  has_more : Option Bool := none
  cursor : Option String := none
  metadata : Option ResponseMetadata := none
  deriving DecidableEq, Repr

/-- Second pass of `listRuns`: walk the merged events in order; for each event
carrying a `run_id` not yet seen, mark it seen, point-look-up the run
(`store rid = none` models a thrown `getRun`, which skips the run but leaves
it marked seen, exactly as `seenRunIds.add` precedes the `try`), enrich it
with the first-pass function name, apply the status and function filters, and
append survivors to the accumulator. -/
def materializeRuns (store : String → Option InngestRun) (opts : ListOptions)
    (fnames : List (String × String)) :
    List DiscoveryEvent → List String → List InngestRun → List InngestRun
  | [], _, acc => acc
  | e :: rest, seen, acc =>
    match e.runId? with
    | none => materializeRuns store opts fnames rest seen acc
    | some rid =>
      if rid ∈ seen then
        materializeRuns store opts fnames rest seen acc
      else
        match store rid with
        | none => materializeRuns store opts fnames rest (rid :: seen) acc
        | some run =>
          let enriched := { run with function_name := jsMapGet fnames rid }
          if statusFilterPass opts.status enriched &&
              functionFilterPass opts.function_id enriched then
            materializeRuns store opts fnames rest (rid :: seen) (acc ++ [enriched])
          else
            materializeRuns store opts fnames rest (rid :: seen) acc

/-- Number of 12-hour chunks covering the lookback window:
`Math.ceil(totalHours / chunkHours)` with `chunkHours = 12`. -/
def chunkCount (totalHours : Nat) : Nat := (totalHours + 11) / 12

/-- The chunk indices issued by `fetchTimeBasedChunks`: the JS loop
`for (let i = 1; i < chunks && i <= 6; i++)` iterates `i` over
`1 .. min(chunks - 1, 6)` (chunk 0 is the initial page, already fetched). -/
def chunkIndices (totalHours : Nat) : List Nat :=
  List.range' 1 (min (chunkCount totalHours - 1) 6)

/-- The hour window `(startHours, endHours)` requested for chunk `i`: events
received between `now - startHours` and `now - endHours`, with
`endHours = i * 12` and `startHours = min((i + 1) * 12, totalHours)`. -/
def chunkWindow (totalHours i : Nat) : Nat × Nat :=
  (min ((i + 1) * 12) totalHours, i * 12)

/-- All hour windows requested by one `fetchTimeBasedChunks` invocation. -/
def chunkWindows (totalHours : Nat) : List (Nat × Nat) :=
  (chunkIndices totalHours).map (chunkWindow totalHours)

/-- One settled chunk request of the fan-out: `{ chunkIndex, events }` on
success, `{ chunkIndex, events: [], error: true }` from the promise `catch`
handler on failure. -/
structure ChunkResult where
  chunkIndex : Nat
  events : List DiscoveryEvent
  error : Bool
  deriving DecidableEq, Repr

/-- Settle the chunk fan-out: chunk `i` resolves to its events, or to an
error marker when its request fails (`chunkFetch i = none`). -/
def settleChunks (chunkFetch : Nat → Option (List DiscoveryEvent)) (idxs : List Nat) :
    List ChunkResult :=
  idxs.map (fun i =>
    match chunkFetch i with
    | some evs => ⟨i + 1, evs, false⟩
    | none => ⟨i + 1, [], true⟩)

/-- The merge loop of `fetchTimeBasedChunks` over the settled chunk results:
error chunks are skipped, non-empty chunks are appended, and merging stops
early once at least `maxResults` events have accumulated. -/
def mergeChunks (maxResults : Nat) (acc : List DiscoveryEvent) :
    List ChunkResult → List DiscoveryEvent
  | [] => acc
  | r :: rest =>
    if r.error then mergeChunks maxResults acc rest
    else if 0 < r.events.length then
      if maxResults ≤ (acc ++ r.events).length then acc ++ r.events
      else mergeChunks maxResults (acc ++ r.events) rest
    else mergeChunks maxResults acc rest

/-- The `InngestClient.fetchTimeBasedChunks` pipeline: at most six 12-hour chunks issued
concurrently, settled, merged with early termination, then
`slice(0, maxResults)`. The settled list is already in ascending `chunkIndex`
order (`Promise.all` preserves issue order and the indices are distinct and
increasing), so the JS re-sort by `chunkIndex` is the identity here and is
not modelled as a separate step. -/
def fetchTimeBasedChunksModel (chunkFetch : Nat → Option (List DiscoveryEvent))
    (hoursOpt maxResultsOpt : Option Nat) : List DiscoveryEvent :=
  let totalHours := numOr hoursOpt 168
  let maxResults := numOr maxResultsOpt 1000
  (mergeChunks maxResults [] (settleChunks chunkFetch (chunkIndices totalHours))).take
    maxResults

/-- The `InngestClient.fetchAdditionalPages` loop: follow the continuation cursor
sequentially for up to 20 extra pages, stopping on a request error
(`pageFetch c = none`), an empty page, or a missing or repeated cursor. The
fuel argument is `maxAdditionalPages - pagesLoaded` and starts at 20. -/
def fetchAdditionalPagesModel
    (pageFetch : String → Option (List DiscoveryEvent × Option String)) :
    Option String → Nat → List DiscoveryEvent
  | _, 0 => []
  | cur, fuel + 1 =>
    if strTruthy cur then
      match pageFetch (cur.getD "") with
      | none => []
      | some (pageEvents, nextCursor) =>
        if pageEvents.length = 0 then []
        else
          pageEvents ++
            (if strTruthy nextCursor && nextCursor != cur then
              fetchAdditionalPagesModel pageFetch nextCursor fuel
            else [])
    else []

/-- The upstream surface one `listRuns` invocation consumes, with the initial
events page (the only fetch with no fallback) already materialized. -/
structure Upstream where
  initialPage : List DiscoveryEvent
  initialNextCursor : Option String := none
  pageFetch : String → Option (List DiscoveryEvent × Option String) := fun _ => none
  chunkFetch : Nat → Option (List DiscoveryEvent) := fun _ => none
  runStore : String → Option InngestRun := fun _ => none

/-- The merged event list `listRuns` materializes from: the initial page;
then, only when a (truthy) status filter is active, the time-chunked events
and — when the merged list so far is non-empty — the additional cursor
pages. -/
def gatherEvents (up : Upstream) (opts : ListOptions) : List DiscoveryEvent :=
  if strTruthy opts.status then
    let maxResults := max (numOr opts.limit 20 * 5) 200
    let events :=
      up.initialPage ++
        fetchTimeBasedChunksModel up.chunkFetch opts.hours (some maxResults)
    if 0 < events.length then
      events ++ fetchAdditionalPagesModel up.pageFetch up.initialNextCursor 20
    else events
  else up.initialPage

/-- The `InngestClient.listRuns` engine as a pure function of the upstream responses:
gather events, build the run-to-function-name map, materialize + enrich +
filter + deduplicate, truncate to `options.limit || 20`, and attach metadata.
The result object carries no `has_more` and no `cursor` field. The final zod
re-validation succeeds on this already-well-typed value and is modelled as
the identity; the ephemeral input-data cache is side state never read by any
result field and is not modelled. -/
def listRunsModel (up : Upstream) (opts : ListOptions) (now : String) :
    ListRunsResponse :=
  let events := gatherEvents up opts
  let fnames := buildFunctionNames events
  let runs := materializeRuns up.runStore opts fnames events [] []
  { data := runs.take (numOr opts.limit 20),
    has_more := none,
    cursor := none,
    metadata := some { fetched_at := now, cached_until := none } }

/-- The suffix-search loop inside `findRunByPartialId`: scan the
recent-events feed in order for the first event whose `run_id` ends with the
given suffix and whose point lookup succeeds; a failed lookup for a matching
candidate just moves on to the next event. -/
def searchBySuffix (store : String → Option InngestRun) (sfx : String) :
    List DiscoveryEvent → Option InngestRun
  | [] => none
  | e :: rest =>
    match e.runId? with
    | some rid =>
      if strEndsWith rid sfx then
        match store rid with
        | some run => some run
        | none => searchBySuffix store sfx rest
      else searchBySuffix store sfx rest
    | none => searchBySuffix store sfx rest

/-- The `InngestClient.findRunByPartialId` resolver: an identifier matching the full
26-character ULID shape goes straight to the point lookup, with a lookup
failure becoming `none` (never a search); any other identifier triggers the
suffix search over the recent-events feed (`listEvents({ limit: 200 })`,
whose result is the `feed` parameter; `feed = none` models a thrown
`listEvents` call, collapsing to `none`). -/
def findRunByPartialIdModel (store : String → Option InngestRun)
    (feed : Option (List DiscoveryEvent)) (partialId : String) :
    Option InngestRun :=
  if validateRunId partialId then store partialId
  else
    match feed with
    | none => none
    | some events => searchBySuffix store partialId events

/-- Outcome of `ensureRun` (`ResolvedRun` in `src/utils/run-helpers.ts`).
`usedPartialId` is the source's flag recording that the suffix-search path
produced the run. -/
structure ResolvedRun where
  run : InngestRun
  runId : String
  usedPartialId : Bool
  deriving DecidableEq, Repr

/-- Failure modes of `ensureRun`: a canonical-shaped identifier whose direct
`getRun` throws propagates that error (`lookupFailed`); the suffix path that
finds nothing throws `createRunNotFoundError` (`notFound`). -/
inductive ResolveError where
  | lookupFailed
  | notFound
  deriving DecidableEq, Repr

/-- The `ensureRun` resolver from `src/utils/run-helpers.ts`. -/
def ensureRunModel (store : String → Option InngestRun)
    (feed : Option (List DiscoveryEvent)) (runIdInput : String) :
    Except ResolveError ResolvedRun :=
  if validateRunId runIdInput then
    match store runIdInput with
    | some run => .ok ⟨run, run.run_id, false⟩
    | none => .error .lookupFailed
  else
    match findRunByPartialIdModel store feed runIdInput with
    | some run => .ok ⟨run, run.run_id, true⟩
    | none => .error .notFound

/-- The first event in the feed that references any resolvable run, ignoring
suffixes entirely; used to characterize resolution of the empty identifier
(every string ends with the empty suffix). -/
def firstResolvableRun (store : String → Option InngestRun) :
    List DiscoveryEvent → Option InngestRun
  | [] => none
  | e :: rest =>
    match e.runId? with
    | some rid =>
      match store rid with
      | some run => some run
      | none => firstResolvableRun store rest
    | none => firstResolvableRun store rest

/-- Options for `collectRuns` (`CollectRunsOptions` in
`src/utils/run-collection.ts`; `limit` is required there). -/
structure CollectOptions where
  status : Option String := none
  function_id : Option String := none
  cursor : Option String := none
  limit : Nat
  after : Option String := none
  before : Option String := none
  hours : Option Nat := none
  fetchAll : Bool := false
  deriving Repr

/-- The per-iteration request object assembled by `collectRuns`: each field is
copied only when truthy, except `hours`, which is copied whenever it is a
number (`typeof options.hours === 'number'`); in fetch-all mode the request
limit is the full upstream page of 100 instead of the caller's limit. -/
def buildListOptions (opts : CollectOptions) (cursorForRequest : Option String) :
    ListOptions :=
  { limit := some (if opts.fetchAll then 100 else opts.limit),
    status := if strTruthy opts.status then opts.status else none,
    function_id := if strTruthy opts.function_id then opts.function_id else none,
    cursor := if strTruthy cursorForRequest then cursorForRequest else none,
    after := if strTruthy opts.after then opts.after else none,
    before := if strTruthy opts.before then opts.before else none,
    hours := opts.hours }

/-- The safety ceiling `SAFETY_LIMIT = 1000` of `collectRuns`. -/
def SAFETY_LIMIT : Nat := 1000

/-- The distinct forced-stop progress message of `collectRuns`. -/
def safetyMsg : String := "Reached maximum of 1000 runs for safety"

/-- What one `collectRuns` call produces, extended with the number of
upstream `listRuns` calls made and the progress messages delivered to the
`onProgress` callback (when one is installed). -/
structure CollectOutcome where
  runs : List InngestRun
  hasMore : Bool
  nextCursor : Option String
  calls : Nat
  progress : List String
  deriving DecidableEq, Repr

/-- Mutable state of the `collectRuns` loop. -/
structure CollectState where
  runs : List InngestRun
  cursorForRequest : Option String
  nextCursor : Option String
  calls : Nat
  progress : List String

/-- The `while (true)` loop of `collectRuns`, with explicit fuel (`none`
means the fuel ran out before the loop exited; the source loop has no bound
of its own). Each iteration: issue the request, append `response.data`,
record a truthy `response.cursor` as `nextCursor`, break unless
`fetchAll && response.has_more && response.cursor` are all truthy, otherwise
advance the cursor, report progress, and force a stop with `hasMore = true`
and the distinct safety message once `SAFETY_LIMIT` runs have accumulated. -/
def collectRunsLoop (client : ListOptions → ListRunsResponse)
    (opts : CollectOptions) : Nat → CollectState → Option CollectOutcome
  | 0, _ => none
  | fuel + 1, st =>
    let resp := client (buildListOptions opts st.cursorForRequest)
    let runs := st.runs ++ resp.data
    let nextCursor := if strTruthy resp.cursor then resp.cursor else st.nextCursor
    let calls := st.calls + 1
    if !(opts.fetchAll && boolTruthy resp.has_more && strTruthy resp.cursor) then
      some ⟨runs, boolTruthy resp.has_more && strTruthy resp.cursor, nextCursor,
        calls, st.progress⟩
    else
      let progress :=
        st.progress ++ ["Fetched " ++ toString runs.length ++ " runs, continuing..."]
      if opts.fetchAll && SAFETY_LIMIT ≤ runs.length then
        some ⟨runs, true, nextCursor, calls, progress ++ [safetyMsg]⟩
      else
        collectRunsLoop client opts fuel ⟨runs, resp.cursor, nextCursor, calls, progress⟩

/-- The `collectRuns` entry point: start from the caller's cursor with no runs,
no next cursor, no calls and no progress messages. -/
def collectRunsModel (client : ListOptions → ListRunsResponse)
    (opts : CollectOptions) (fuel : Nat) : Option CollectOutcome :=
  collectRunsLoop client opts fuel ⟨[], opts.cursor, none, 0, []⟩

/-- Outcome of one tick of the event-mode poll loop. -/
inductive TickOutcome where
  | stopAllComplete
  | stopTimeout
  | stopError
  | continuePolling
  deriving DecidableEq, Repr

/-- The JS timeout test
`options.maxDuration && Date.now() - startTime > options.maxDuration`
(`maxDuration = 0` is falsy and disables the check). -/
def timedOut (maxDuration : Option Nat) (elapsed : Nat) : Bool :=
  match maxDuration with
  | some m => if m = 0 then false else m < elapsed
  | none => false

/-- One tick of `RunWatcher.watchEventRuns` (`checkRuns` in
`src/utils/display.ts`): look up the event's runs (`lookup = none` models a
thrown `getEventRuns`, which stops the watch with an error); stop naturally
when no run is still `Running` and at least one run exists; otherwise stop on
timeout; otherwise keep polling. The re-render-on-count-change step has no
effect on the stop decision and is not modelled. -/
def watchEventRunsTick (lookup : Option (List InngestRun))
    (maxDuration : Option Nat) (elapsed : Nat) : TickOutcome :=
  match lookup with
  | none => .stopError
  | some runs =>
    let activeRuns := runs.filter (fun run => statusStr run.status == "Running")
    if activeRuns.length = 0 && 0 < runs.length then .stopAllComplete
    else if timedOut maxDuration elapsed then .stopTimeout
    else .continuePolling

/-- Non-terminal run statuses per the spec's lifecycle: `Queued` and
`Running` are non-terminal, the terminal set is `Completed`, `Failed`,
`Cancelled`. Note the watcher's activity filter tests `status === 'Running'`
only, which is strictly narrower than non-terminality. -/
def isNonTerminal (s : RunStatus) : Bool :=
  match s with
  | .Running => true
  | .Queued => true
  | .Completed => false
  | .Failed => false
  | .Cancelled => false

/-- A run store is consistent when a successful point lookup returns a record
whose `run_id` is the requested id (the upstream `GET /v1/runs/{id}`
contract). -/
def StoreConsistent (store : String → Option InngestRun) : Prop :=
  ∀ rid run, store rid = some run → run.run_id = rid

/-- Concrete run record used by witnesses. -/
def run1 : InngestRun := { run_id := "R1", status := .Completed }

/-- Concrete run record used by witnesses. -/
def run2 : InngestRun := { run_id := "R2", status := .Running }

/-- Concrete run record in the validated-but-non-terminal `Queued` state. -/
def runQueued : InngestRun := { run_id := "Q1", status := .Queued }

/-- Concrete consistent run store used by witnesses: resolves `R1` and `R2`. -/
def storeW : String → Option InngestRun :=
  fun rid => if rid = "R1" then some run1 else if rid = "R2" then some run2 else none

/-- Concrete upstream whose event stream references run `R1` twice, first
with function id `f1` and then with function id `f2`. -/
def upFirstWins : Upstream :=
  { initialPage :=
      [ { runId? := some "R1", functionId? := some "f1" },
        { runId? := some "R1", functionId? := some "f2" } ],
    runStore := storeW }

/-- Concrete upstream whose event stream references `R1` (twice) and `R2`,
used by the deduplication and status-filter witnesses. -/
def upDedup : Upstream :=
  { initialPage :=
      [ { runId? := some "R1" }, { runId? := some "R2" }, { runId? := some "R1" } ],
    runStore := storeW }

/-- Concrete run record with a full canonical 26-character id ending in the
suffix `RKED1TV8410X`. -/
def runFull : InngestRun :=
  { run_id := "01K4Z25NHYZFHPRKED1TV8410X", status := .Running }

/-- Concrete store resolving only the canonical id of `runFull`. -/
def storeFull : String → Option InngestRun :=
  fun rid => if rid = "01K4Z25NHYZFHPRKED1TV8410X" then some runFull else none

/-- Concrete discovery feed containing one event referencing `runFull`. -/
def feedFull : List DiscoveryEvent :=
  [ { runId? := some "01K4Z25NHYZFHPRKED1TV8410X" } ]

/-- Concrete fetch-all options for the collector. -/
def optsFetchAll : CollectOptions := { limit := 20, fetchAll := true }

/-- Concrete run record appended by the mock collector upstreams. -/
def sampleRun : InngestRun := { run_id := "S", status := .Completed }

/-- Mock upstream for the collector that always reports `has_more = true`
with a cursor and returns pages of 1001 runs. -/
def clientBig : ListOptions → ListRunsResponse :=
  fun _ => { data := List.replicate 1001 sampleRun, has_more := some true, cursor := some "c" }

/-- Mock upstream for the collector that always reports `has_more = true`
with a cursor and returns full pages of exactly 100 runs (the page size
`collectRuns` requests in fetch-all mode). -/
def client100 : ListOptions → ListRunsResponse :=
  fun _ => { data := List.replicate 100 sampleRun, has_more := some true, cursor := some "c" }

/-- The merge loop ignores an error-marked chunk result wherever it sits. -/
theorem mergeChunks_error_skip (maxR i : Nat) (post : List ChunkResult) :
    ∀ (pre : List ChunkResult) (acc : List DiscoveryEvent),
      mergeChunks maxR acc (pre ++ ChunkResult.mk i [] true :: post) =
        mergeChunks maxR acc (pre ++ post) := by
  intro pre
  induction pre with
  | nil => intro acc; simp [mergeChunks]
  | cons r rest ih =>
    intro acc
    by_cases he : r.error = true
    · simp [mergeChunks, he, ih]
    · by_cases hn : 0 < r.events.length
      · by_cases hm : maxR ≤ acc.length + r.events.length
        · simp [mergeChunks, he, hn, hm]
        · simp [mergeChunks, he, hn, hm, ih]
      · simp [mergeChunks, he, hn, ih]

/-- Claim C7: if chunk `k` of the concurrent fan-out fails (settling as an
error result with an empty event list), the merged event list — and its
final `slice(0, maxResults)` — equal those produced when chunk `k` is
omitted from the settled results entirely: a failed chunk contributes
nothing and never aborts the sibling chunks or the overall search. -/
theorem chunk_failure_isolation (maxResults i : Nat)
    (pre post : List ChunkResult) :
    mergeChunks maxResults [] (pre ++ ChunkResult.mk i [] true :: post) =
      mergeChunks maxResults [] (pre ++ post) ∧
    (mergeChunks maxResults [] (pre ++ ChunkResult.mk i [] true :: post)).take maxResults =
      (mergeChunks maxResults [] (pre ++ post)).take maxResults := by
  have h := mergeChunks_error_skip maxResults i post pre []
  exact ⟨h, by rw [h]⟩

/-- Claim C10: one invocation of the time-chunk fan-out issues at most 6
chunk requests, and every requested hour window `(startHours, endHours)`
satisfies `startHours ≤ 84` and `endHours ≤ 72` — i.e. every chunk lies
within the most recent 7 × 12 = 84 hours, so for lookbacks longer than 84
hours (including the 168-hour default) the older portion is never queried
by the fan-out. -/
theorem chunk_fanout_bounds (hoursOpt : Option Nat) :
    (chunkWindows (numOr hoursOpt 168)).length ≤ 6 ∧
    ∀ w ∈ chunkWindows (numOr hoursOpt 168), w.1 ≤ 84 ∧ w.2 ≤ 72 := by
  constructor
  · simp only [chunkWindows, chunkIndices, List.length_map, List.length_range']
    exact min_le_right _ _
  · intro w hw
    simp only [chunkWindows, chunkIndices, List.mem_map] at hw
    obtain ⟨i, hi, rfl⟩ := hw
    have hmem := List.mem_range'_1.mp hi
    have h6 : i ≤ 6 := by omega
    simp only [chunkWindow]
    omega

/-- Claim C10 witness: with the default 168-hour lookback the fan-out issues
at most 6 requests and the first chunk's window `(24, 12)` lies within the
most recent 84 hours. -/
theorem chunk_fanout_bounds_witness :
    (chunkWindows (numOr none 168)).length ≤ 6 ∧
    ((24, 12) : Nat × Nat).1 ≤ 84 ∧ ((24, 12) : Nat × Nat).2 ≤ 72 :=
  ⟨(chunk_fanout_bounds none).1,
    (chunk_fanout_bounds none).2 (24, 12) (by decide)⟩

/-- A run's runtime status string equals `"Running"` exactly when its status
is `Running` — in particular NOT on the non-terminal `Queued` status. -/
theorem statusStr_beq_running (s : RunStatus) :
    (statusStr s == "Running") = decide (s = RunStatus.Running) := by
  cases s <;> rfl

/-- Claim C8 counterexample: a poll tick observing exactly one `Queued` run —
a validated, non-terminal status — stops with the natural "all runs
completed" outcome even though a non-terminal run remains: the watcher's
activity filter tests `status === 'Running'` only, so the claim's "polling
continues while any run is non-terminal" fails. -/
theorem watchEventRuns_queued_stops_cex :
    isNonTerminal runQueued.status = true ∧
    watchEventRunsTick (some [runQueued]) none 0 = TickOutcome.stopAllComplete := by
  constructor
  · rfl
  · rfl

/-- Claim C8 (amended): an event-mode poll tick whose lookup succeeds stops
with the natural "all runs completed" outcome exactly when no observed run
has status `Running` and at least one run exists — a `Queued` run does not
count as active, so the natural stop can fire while `Queued` (non-terminal)
runs remain; and as long as some observed run is `Running` (and the timeout
has not fired), polling continues. -/
theorem watchEventRuns_running_only_stop (runs : List InngestRun)
    (maxD : Option Nat) (elapsed : Nat) :
    (watchEventRunsTick (some runs) maxD elapsed = TickOutcome.stopAllComplete ↔
      (∀ r ∈ runs, r.status ≠ RunStatus.Running) ∧ runs ≠ []) ∧
    ((∃ r ∈ runs, r.status = RunStatus.Running) →
      timedOut maxD elapsed = false →
      watchEventRunsTick (some runs) maxD elapsed = TickOutcome.continuePolling) := by
  have hfilt : runs.filter (fun run => statusStr run.status == "Running") =
      runs.filter (fun run => decide (run.status = RunStatus.Running)) := by
    apply List.filter_congr
    intro r _
    exact statusStr_beq_running r.status
  constructor
  · simp only [watchEventRunsTick, hfilt]
    constructor
    · intro h
      by_cases hc :
          ((runs.filter (fun run => decide (run.status = RunStatus.Running))).length = 0 ∧
            0 < runs.length)
      · refine ⟨?_, ?_⟩
        · intro r hr
          have hnil :
              runs.filter (fun run => decide (run.status = RunStatus.Running)) = [] :=
            List.length_eq_zero.mp hc.1
          have := List.filter_eq_nil_iff.mp hnil r hr
          simpa using this
        · exact List.length_pos.mp hc.2
      · exfalso
        rw [if_neg (by simpa using hc)] at h
        by_cases ht : timedOut maxD elapsed = true
        · rw [if_pos ht] at h; exact TickOutcome.noConfusion h
        · rw [if_neg ht] at h; exact TickOutcome.noConfusion h
    · intro ⟨hall, hne⟩
      have hnil :
          runs.filter (fun run => decide (run.status = RunStatus.Running)) = [] :=
        List.filter_eq_nil_iff.mpr (fun r hr => by simp [hall r hr])
      rw [if_pos (by simp [hnil, List.length_pos, hne])]
  · intro ⟨r, hr, hrun⟩ hto
    simp only [watchEventRunsTick, hfilt]
    have hmem : r ∈ runs.filter (fun run => decide (run.status = RunStatus.Running)) :=
      List.mem_filter.mpr ⟨hr, by simp [hrun]⟩
    have hlen :
        (runs.filter (fun run => decide (run.status = RunStatus.Running))).length ≠ 0 := by
      intro h0
      rw [List.length_eq_zero.mp h0] at hmem
      exact List.not_mem_nil r hmem
    rw [if_neg (by simp [hlen]), if_neg (by simp [hto])]

/-- Claim C8 witness: a tick observing one `Running` run with no timeout
configured keeps polling. -/
theorem watchEventRuns_running_only_stop_witness :
    watchEventRunsTick (some [run2]) none 0 = TickOutcome.continuePolling :=
  (watchEventRuns_running_only_stop [run2] none 0).2
    ⟨run2, by decide, by decide⟩ rfl

/-- The empty string is a suffix of every run id, so the empty-identifier
suffix search degenerates to "first event whose referenced run resolves". -/
theorem searchBySuffix_empty (store : String → Option InngestRun)
    (events : List DiscoveryEvent) :
    searchBySuffix store "" events = firstResolvableRun store events := by
  induction events with
  | nil => rfl
  | cons e rest ih =>
    cases hr : e.runId? with
    | none => simp [searchBySuffix, firstResolvableRun, hr, ih]
    | some rid =>
      have hend : strEndsWith rid "" = true := by
        simp [strEndsWith, List.isSuffixOf]
      cases hs : store rid with
      | none => simp [searchBySuffix, firstResolvableRun, hr, hs, hend, ih]
      | some run => simp [searchBySuffix, firstResolvableRun, hr, hs, hend]

/-- Claim C6 counterexample: with a discovery feed containing one event that
references the resolvable run `R1`, resolving the empty identifier succeeds
and returns that run (it does not fail with `NotFoundError`). -/
theorem ensureRun_empty_id_cex :
    ensureRunModel storeW (some [{ runId? := some "R1" }]) "" =
      Except.ok ⟨run1, "R1", true⟩ := by
  rfl

/-- Claim C6 (amended): resolving the empty identifier takes the suffix
path, and — because every run id ends with the empty suffix — returns the
first event-referenced run that resolves, with `usedPartialId = true`; it
fails with `NotFoundError` exactly when no event in the feed references a
resolvable run (and also when the feed fetch itself fails). -/
theorem ensureRun_empty_id_behavior (store : String → Option InngestRun)
    (events : List DiscoveryEvent) :
    ensureRunModel store (some events) "" =
      (match firstResolvableRun store events with
       | some run => Except.ok ⟨run, run.run_id, true⟩
       | none => Except.error ResolveError.notFound) ∧
    ensureRunModel store none "" = Except.error ResolveError.notFound := by
  constructor
  · have hv : validateRunId "" = false := rfl
    simp only [ensureRunModel, findRunByPartialIdModel, hv, Bool.false_eq_true,
      if_false, searchBySuffix_empty]
  · rfl

/-- Claim C9: `listRuns` always builds its result without `has_more` and
without `cursor`, so `collectRuns` composed with it — for every options
value, in single-page and fetch-all mode alike — makes exactly one
`listRuns` call and returns `hasMore = false` with a null `nextCursor`. -/
theorem listRuns_no_pagination_signal (up : Upstream) (now : String)
    (opts : CollectOptions) (fuel : Nat) (hfuel : 1 ≤ fuel) :
    (∀ lopts, (listRunsModel up lopts now).has_more = none ∧
      (listRunsModel up lopts now).cursor = none) ∧
    (collectRunsModel (fun o => listRunsModel up o now) opts fuel).map
        (fun out => (out.calls, out.hasMore, out.nextCursor)) =
      some (1, false, none) := by
  constructor
  · intro lopts
    exact ⟨rfl, rfl⟩
  · obtain ⟨f, rfl⟩ : ∃ f, fuel = f + 1 := ⟨fuel - 1, by omega⟩
    have hm : ∀ lo, (listRunsModel up lo now).has_more = none := fun _ => rfl
    have hc : ∀ lo, (listRunsModel up lo now).cursor = none := fun _ => rfl
    simp [collectRunsModel, collectRunsLoop, hm, hc, boolTruthy, strTruthy]

/-- Claim C9 witness: one concrete composition makes exactly one call and
reports no further pages. -/
theorem listRuns_no_pagination_signal_witness :
    (collectRunsModel (fun o => listRunsModel upDedup o "t") optsFetchAll 1).map
        (fun out => (out.calls, out.hasMore, out.nextCursor)) =
      some (1, false, none) :=
  (listRuns_no_pagination_signal upDedup "t" optsFetchAll 1 (by decide)).2

/-- Enriching a run record with a function name leaves its `run_id` and
`status` unchanged. -/
theorem enrich_preserves_id (run : InngestRun) (fn : Option String) :
    ({ run with function_name := fn } : InngestRun).run_id = run.run_id := rfl

/-- The second materialization pass only ever appends runs whose id was not
yet seen, marking each processed id as seen, so the accumulated ids stay
pairwise distinct; requires a consistent store so the fetched record carries
the id it was looked up under. -/
theorem materializeRuns_nodup (store : String → Option InngestRun)
    (opts : ListOptions) (fnames : List (String × String))
    (hst : StoreConsistent store) :
    ∀ (events : List DiscoveryEvent) (seen : List String) (acc : List InngestRun),
      (∀ r ∈ acc, r.run_id ∈ seen) →
      (acc.map (fun r => r.run_id)).Nodup →
      ((materializeRuns store opts fnames events seen acc).map
        (fun r => r.run_id)).Nodup := by
  intro events
  induction events with
  | nil =>
    intro seen acc _ h2
    simpa [materializeRuns] using h2
  | cons e rest ih =>
    intro seen acc h1 h2
    cases hr : e.runId? with
    | none =>
      simp only [materializeRuns, hr]
      exact ih seen acc h1 h2
    | some rid =>
      simp only [materializeRuns, hr]
      by_cases hseen : rid ∈ seen
      · rw [if_pos hseen]
        exact ih seen acc h1 h2
      · rw [if_neg hseen]
        split
        · exact ih _ acc (fun r hrm => List.mem_cons_of_mem _ (h1 r hrm)) h2
        · rename_i run hs
          have hid : run.run_id = rid := hst rid run hs
          split
          · apply ih
            · intro r hrm
              rcases List.mem_append.mp hrm with hin | hin
              · exact List.mem_cons_of_mem _ (h1 r hin)
              · rw [List.mem_singleton.mp hin]
                show run.run_id ∈ rid :: seen
                rw [hid]
                exact List.mem_cons_self _ _
            · have hnot : rid ∉ acc.map (fun r => r.run_id) := by
                intro hmem
                obtain ⟨r, hrin, hr_id⟩ := List.mem_map.mp hmem
                exact hseen (hr_id ▸ h1 r hrin)
              simp only [List.map_append, List.map_cons, List.map_nil, hid]
              rw [List.nodup_append]
              exact ⟨h2, List.nodup_singleton _,
                fun a ha hb => by rw [List.mem_singleton.mp hb] at ha; exact hnot ha⟩
          · exact ih _ acc (fun r hrm => List.mem_cons_of_mem _ (h1 r hrm)) h2

/-- Claim C1: for every upstream event stream (and a consistent run store),
the run list returned by `listRuns` never contains two records with the same
`run_id` — each id appears at most once in the result's data array, however
many events reference the same run. -/
theorem listRuns_dedup_invariant (up : Upstream) (opts : ListOptions)
    (now : String) (hst : StoreConsistent up.runStore) :
    ((listRunsModel up opts now).data.map (fun r => r.run_id)).Nodup := by
  have hall := materializeRuns_nodup up.runStore opts
    (buildFunctionNames (gatherEvents up opts)) hst (gatherEvents up opts) [] []
    (by simp) (by simp)
  simp only [listRunsModel]
  rw [List.map_take]
  exact (List.take_sublist _ _).nodup hall

/-- The concrete witness store is consistent. -/
theorem storeW_consistent : StoreConsistent storeW := by
  intro rid run h
  unfold storeW at h
  split_ifs at h with h1 h2
  · cases h; rw [h1]; rfl
  · cases h; rw [h2]; rfl

/-- Claim C1 witness: a concrete stream referencing `R1` twice and `R2` once
yields pairwise-distinct run ids. -/
theorem listRuns_dedup_invariant_witness :
    (((listRunsModel upDedup {} "t").data).map (fun r => r.run_id)).Nodup :=
  listRuns_dedup_invariant upDedup {} "t" storeW_consistent

/-- A run that passes an active (truthy) status filter has exactly the
filtered status. -/
theorem statusFilterPass_eq (s : String) (hne : s ≠ "") (r : InngestRun)
    (h : statusFilterPass (some s) r = true) : statusStr r.status = s := by
  have hcond : strTruthy (some s) = true := by simp [strTruthy, hne]
  unfold statusFilterPass at h
  rw [if_pos hcond] at h
  simpa using h

/-- Every run the second pass accumulates under an active status filter
carries the filtered status. -/
theorem materializeRuns_status (store : String → Option InngestRun)
    (opts : ListOptions) (fnames : List (String × String)) (s : String)
    (hs : opts.status = some s) (hne : s ≠ "") :
    ∀ (events : List DiscoveryEvent) (seen : List String) (acc : List InngestRun),
      (∀ r ∈ acc, statusStr r.status = s) →
      ∀ r ∈ materializeRuns store opts fnames events seen acc,
        statusStr r.status = s := by
  intro events
  induction events with
  | nil =>
    intro seen acc hacc
    simpa [materializeRuns] using hacc
  | cons e rest ih =>
    intro seen acc hacc
    cases hr : e.runId? with
    | none =>
      simp only [materializeRuns, hr]
      exact ih seen acc hacc
    | some rid =>
      simp only [materializeRuns, hr]
      by_cases hseen : rid ∈ seen
      · rw [if_pos hseen]
        exact ih seen acc hacc
      · rw [if_neg hseen]
        split
        · exact ih _ acc hacc
        · rename_i run hsr
          split
          · rename_i hf
            apply ih
            intro r hrm
            rcases List.mem_append.mp hrm with hin | hin
            · exact hacc r hin
            · rw [List.mem_singleton.mp hin]
              have hsf : statusFilterPass opts.status
                  { run with function_name := jsMapGet fnames rid } = true :=
                ((Bool.and_eq_true _ _).mp hf).1
              rw [hs] at hsf
              exact statusFilterPass_eq s hne _ hsf
          · exact ih _ acc hacc

/-- Claim C3: for every (truthy) status filter `S` passed to `listRuns`,
every run record in the returned data array has status `S`, regardless of
which chunk or page its event came from. -/
theorem listRuns_status_filter_correct (up : Upstream) (opts : ListOptions)
    (now : String) (s : String) (hs : opts.status = some s) (hne : s ≠ "") :
    ∀ r ∈ (listRunsModel up opts now).data, statusStr r.status = s := by
  intro r hr
  have hsub : r ∈ materializeRuns up.runStore opts
      (buildFunctionNames (gatherEvents up opts)) (gatherEvents up opts) [] [] := by
    apply List.take_subset (numOr opts.limit 20)
    simpa [listRunsModel] using hr
  exact materializeRuns_status up.runStore opts _ s hs hne
    (gatherEvents up opts) [] [] (by simp) r hsub

/-- Claim C3 witness: filtering the concrete stream by `Completed` yields
only `Completed` runs; `run1` is in the output and has that status. -/
theorem listRuns_status_filter_correct_witness :
    statusStr run1.status = "Completed" :=
  listRuns_status_filter_correct upDedup { status := some "Completed" } "t"
    "Completed" rfl (by decide) run1 (by decide)

/-- Reading a map after `Map.set`: the set key now maps to the new value and
every other key is untouched. -/
theorem jsMapGet_jsMapSet (m : List (String × String)) (k v k' : String) :
    jsMapGet (jsMapSet m k v) k' = if k' = k then some v else jsMapGet m k' := by
  induction m with
  | nil =>
    rcases eq_or_ne k' k with hk | hk
    · subst hk
      simp [jsMapSet, jsMapGet]
    · simp [jsMapSet, jsMapGet, hk, Ne.symm hk]
  | cons p rest ih =>
    rcases eq_or_ne p.1 k with hp | hp
    · rcases eq_or_ne k' k with hk | hk
      · subst hk
        simp [jsMapSet, jsMapGet, hp]
      · have hpk' : p.1 ≠ k' := by rw [hp]; exact Ne.symm hk
        simp [jsMapSet, jsMapGet, hp, hk, Ne.symm hk, hpk']
    · rcases eq_or_ne p.1 k' with hpk | hpk
      · have hk : k' ≠ k := fun h => hp (hpk.trans h)
        simp [jsMapSet, jsMapGet, hp, hpk, hk]
      · simp [jsMapSet, jsMapGet, hp, hpk, ih]

/-- Reading the first-pass map at `rid` yields the function id of the last
event that set it, starting from any initial map. -/
theorem jsMapGet_foldl_events (rid : String) :
    ∀ (events : List DiscoveryEvent) (m : List (String × String)),
      jsMapGet
        (events.foldl
          (fun m e =>
            match e.runId?, e.functionId? with
            | some r, some fid => jsMapSet m r fid
            | _, _ => m)
          m) rid =
      events.foldl
        (fun acc e =>
          match e.runId?, e.functionId? with
          | some r, some fid => if r = rid then some fid else acc
          | _, _ => acc)
        (jsMapGet m rid) := by
  intro events
  induction events with
  | nil => intro m; rfl
  | cons e rest ih =>
    intro m
    simp only [List.foldl_cons]
    rw [ih]
    congr 1
    cases hr : e.runId? with
    | none => rfl
    | some r =>
      cases hf : e.functionId? with
      | none => rfl
      | some fid =>
        simp only [jsMapGet_jsMapSet]
        by_cases h : r = rid
        · rw [if_pos h, if_pos h.symm]
        · rw [if_neg h, if_neg (fun hh : rid = r => h hh.symm)]

/-- Reading the first-pass map returns exactly the last-event function id. -/
theorem jsMapGet_buildFunctionNames (events : List DiscoveryEvent) (rid : String) :
    jsMapGet (buildFunctionNames events) rid = lastFunctionIdFor events rid := by
  have h := jsMapGet_foldl_events rid events []
  simpa [buildFunctionNames, lastFunctionIdFor, jsMapGet] using h

/-- Every run the second pass accumulates carries as `function_name` exactly
the first-pass map's entry for its own `run_id` (consistent store). -/
theorem materializeRuns_fname (store : String → Option InngestRun)
    (opts : ListOptions) (fnames : List (String × String))
    (hst : StoreConsistent store) :
    ∀ (events : List DiscoveryEvent) (seen : List String) (acc : List InngestRun),
      (∀ r ∈ acc, r.function_name = jsMapGet fnames r.run_id) →
      ∀ r ∈ materializeRuns store opts fnames events seen acc,
        r.function_name = jsMapGet fnames r.run_id := by
  intro events
  induction events with
  | nil =>
    intro seen acc hacc
    simpa [materializeRuns] using hacc
  | cons e rest ih =>
    intro seen acc hacc
    cases hr : e.runId? with
    | none =>
      simp only [materializeRuns, hr]
      exact ih seen acc hacc
    | some rid =>
      simp only [materializeRuns, hr]
      by_cases hseen : rid ∈ seen
      · rw [if_pos hseen]
        exact ih seen acc hacc
      · rw [if_neg hseen]
        split
        · exact ih _ acc hacc
        · rename_i run hsr
          have hid : run.run_id = rid := hst rid run hsr
          split
          · apply ih
            intro r hrm
            rcases List.mem_append.mp hrm with hin | hin
            · exact hacc r hin
            · rw [List.mem_singleton.mp hin]
              show jsMapGet fnames rid =
                jsMapGet fnames ({ run with function_name := jsMapGet fnames rid } :
                  InngestRun).run_id
              have : ({ run with function_name := jsMapGet fnames rid } :
                  InngestRun).run_id = rid := hid
              rw [this]
          · exact ih _ acc hacc

/-- Claim C2 counterexample: a stream whose two events both reference run
`R1`, the first carrying function id `f1` and the second `f2`, materializes
`R1` with `function_name = some "f2"` — the *last* occurrence, not the first
`f1` the claim demands. -/
theorem enrichment_first_wins_cex :
    ((listRunsModel upFirstWins {} "t").data.map (fun r => r.function_name)) =
        [some "f2"] ∧
      (some "f2" : Option String) ≠ some "f1" := by
  constructor
  · rfl
  · decide

/-- Claim C2 (amended): when several events reference the same `run_id` with
function identifiers attached, the materialized run's `function_name` is the
function identifier of the *last* such event in iteration order — JS
`Map.set` overwrites, so later duplicates replace earlier ones (for a
consistent store, over every upstream event stream). -/
theorem enrichment_last_wins (up : Upstream) (opts : ListOptions) (now : String)
    (hst : StoreConsistent up.runStore) :
    ∀ r ∈ (listRunsModel up opts now).data,
      r.function_name = lastFunctionIdFor (gatherEvents up opts) r.run_id := by
  intro r hr
  have hsub : r ∈ materializeRuns up.runStore opts
      (buildFunctionNames (gatherEvents up opts)) (gatherEvents up opts) [] [] := by
    apply List.take_subset (numOr opts.limit 20)
    simpa [listRunsModel] using hr
  have h := materializeRuns_fname up.runStore opts
    (buildFunctionNames (gatherEvents up opts)) hst
    (gatherEvents up opts) [] [] (by simp) r hsub
  rw [h, jsMapGet_buildFunctionNames]

/-- Claim C2 witness: on the concrete duplicate-reference stream the
materialized run's `function_name` equals the last event's function id. -/
theorem enrichment_last_wins_witness :
    ({ run1 with function_name := some "f2" } : InngestRun).function_name =
      lastFunctionIdFor (gatherEvents upFirstWins {})
        ({ run1 with function_name := some "f2" } : InngestRun).run_id :=
  enrichment_last_wins upFirstWins {} "t" storeW_consistent
    { run1 with function_name := some "f2" } (by decide)

/-- Anything the suffix search returns is a run fetched by point lookup under
an id that some event in the feed carries and that ends with the suffix. -/
theorem searchBySuffix_spec (store : String → Option InngestRun) (sfx : String) :
    ∀ (events : List DiscoveryEvent) (run : InngestRun),
      searchBySuffix store sfx events = some run →
      ∃ rid, (∃ e ∈ events, e.runId? = some rid) ∧ strEndsWith rid sfx = true ∧
        store rid = some run := by
  intro events
  induction events with
  | nil =>
    intro run h
    exact absurd h (by simp [searchBySuffix])
  | cons e rest ih =>
    intro run h
    cases hr : e.runId? with
    | none =>
      simp only [searchBySuffix, hr] at h
      obtain ⟨rid, ⟨e', he', hre⟩, hend, hst⟩ := ih run h
      exact ⟨rid, ⟨e', List.mem_cons_of_mem _ he', hre⟩, hend, hst⟩
    | some rid =>
      simp only [searchBySuffix, hr] at h
      split at h
      · rename_i hend
        split at h
        · rename_i run' hs
          cases h
          exact ⟨rid, ⟨e, List.mem_cons_self _ _, hr⟩, hend, hs⟩
        · obtain ⟨rid', ⟨e', he', hre⟩, hend', hst'⟩ := ih run h
          exact ⟨rid', ⟨e', List.mem_cons_of_mem _ he', hre⟩, hend', hst'⟩
      · obtain ⟨rid', ⟨e', he', hre⟩, hend', hst'⟩ := ih run h
        exact ⟨rid', ⟨e', List.mem_cons_of_mem _ he', hre⟩, hend', hst'⟩

/-- Claim C5: an identifier matching the canonical 26-character shape is
resolved by a direct point lookup whose outcome is independent of the
discovery feed (the suffix-search path is never invoked, and a lookup
failure propagates rather than falling back to search); any other identifier
is resolved by scanning recent discovery records for a run whose full id
ends with the identifier, and a successful resolution returns that run with
the partial-id flag set. -/
theorem ensureRun_resolution_paths (store : String → Option InngestRun)
    (feed : Option (List DiscoveryEvent)) (ident : String) :
    (validateRunId ident = true →
      (∀ feed', ensureRunModel store feed' ident = ensureRunModel store feed ident) ∧
      ensureRunModel store feed ident =
        (match store ident with
         | some run => Except.ok ⟨run, run.run_id, false⟩
         | none => Except.error ResolveError.lookupFailed)) ∧
    (validateRunId ident = false →
      ∀ res, ensureRunModel store feed ident = Except.ok res →
        res.usedPartialId = true ∧
        ∃ events rid, feed = some events ∧ (∃ e ∈ events, e.runId? = some rid) ∧
          strEndsWith rid ident = true ∧ store rid = some res.run) := by
  constructor
  · intro hv
    constructor
    · intro feed'
      simp [ensureRunModel, hv]
    · simp [ensureRunModel, hv]
  · intro hv res h
    simp only [ensureRunModel, findRunByPartialIdModel, hv, Bool.false_eq_true,
      if_false] at h
    split at h
    · rename_i run heq
      cases h
      split at heq
      · exact absurd heq (by simp)
      · rename_i evs
        obtain ⟨rid, hmem, hend, hstore⟩ :=
          searchBySuffix_spec store ident evs run heq
        exact ⟨rfl, evs, rid, rfl, hmem, hend, hstore⟩
    · rename_i heq
      simp at h

/-- Claim C5 witness: the 12-character identifier `RKED1TV8410X` resolves via
the suffix path to the run whose full id ends with it, with the partial-id
flag set. -/
theorem ensureRun_resolution_paths_witness :
    (⟨runFull, "01K4Z25NHYZFHPRKED1TV8410X", true⟩ : ResolvedRun).usedPartialId = true ∧
    ∃ events rid, (some feedFull : Option (List DiscoveryEvent)) = some events ∧
      (∃ e ∈ events, e.runId? = some rid) ∧
      strEndsWith rid "RKED1TV8410X" = true ∧
      storeFull rid =
        some (⟨runFull, "01K4Z25NHYZFHPRKED1TV8410X", true⟩ : ResolvedRun).run :=
  (ensureRun_resolution_paths storeFull (some feedFull) "RKED1TV8410X").2
    (by decide) ⟨runFull, "01K4Z25NHYZFHPRKED1TV8410X", true⟩ rfl

/-- One loop pass of `collectRuns` against an upstream that keeps reporting
more data and full 100-run pages either stops at the ceiling (when the
accumulated total reaches 1000) or recurses with 100 more runs; iterating,
`n` remaining rounds of 100 reach exactly 1000. -/
theorem collectRuns_ceiling_aux (client : ListOptions → ListRunsResponse)
    (opts : CollectOptions) (hfa : opts.fetchAll = true)
    (hcl : ∀ o, (client o).has_more = some true ∧ strTruthy (client o).cursor = true ∧
      (client o).data.length = 100) :
    ∀ (n : Nat), 1 ≤ n → ∀ (fuel : Nat) (st : CollectState), n ≤ fuel →
      st.runs.length + 100 * n = 1000 →
      ∃ out, collectRunsLoop client opts fuel st = some out ∧
        out.runs.length = 1000 ∧ out.hasMore = true ∧ safetyMsg ∈ out.progress := by
  intro n
  induction n with
  | zero =>
    intro h
    exact absurd h (by omega)
  | succ n ihn =>
    intro _ fuel st hfuel hlen
    obtain ⟨f, rfl⟩ : ∃ f, fuel = f + 1 := ⟨fuel - 1, by omega⟩
    simp only [collectRunsLoop]
    obtain ⟨hm, hc, hd⟩ := hcl (buildListOptions opts st.cursorForRequest)
    rw [hfa, hm, hc]
    simp only [boolTruthy, Bool.and_true, Bool.true_and, Bool.not_true,
      Bool.false_eq_true, if_false, SAFETY_LIMIT, List.length_append, hd]
    rcases Nat.eq_zero_or_pos n with hn0 | hnpos
    · subst hn0
      rw [if_pos (by simp only [decide_eq_true_eq]; omega)]
      refine ⟨_, rfl, ?_, rfl, ?_⟩
      · simp only [List.length_append, hd]
        omega
      · exact List.mem_append_right _ (List.mem_singleton_self _)
    · rw [if_neg (by simp only [decide_eq_true_eq]; omega)]
      exact ihn hnpos f _ (by omega) (by simp only [List.length_append, hd]; omega)

set_option maxRecDepth 8000 in
/-- Claim C4 counterexample: against an upstream that always reports
`has_more = true` with a cursor but returns 1001-run pages, `collectRuns`
in fetch-all mode terminates with 1001 accumulated runs — not exactly the
1000 the claim demands. -/
theorem fetchAll_ceiling_exact_cex :
    (collectRunsModel clientBig optsFetchAll 5).map (fun out => out.runs.length) =
        some 1001 ∧ (1001 : Nat) ≠ 1000 := by
  constructor
  · rfl
  · decide

/-- Claim C4 (amended): in fetch-all mode, against any upstream whose every
response reports `has_more = true` with a truthy cursor and carries exactly
100 runs (the page size `collectRuns` requests in fetch-all mode), the loop
terminates with exactly 1000 accumulated runs, returns `hasMore = true`, and
emits the distinct forced-stop progress message. -/
theorem fetchAll_ceiling_termination (client : ListOptions → ListRunsResponse)
    (opts : CollectOptions) (fuel : Nat) (hfa : opts.fetchAll = true)
    (hcl : ∀ o, (client o).has_more = some true ∧ strTruthy (client o).cursor = true ∧
      (client o).data.length = 100)
    (hfuel : 10 ≤ fuel) :
    ∃ out, collectRunsModel client opts fuel = some out ∧
      out.runs.length = 1000 ∧ out.hasMore = true ∧ safetyMsg ∈ out.progress :=
  collectRuns_ceiling_aux client opts hfa hcl 10 (by omega) fuel
    ⟨[], opts.cursor, none, 0, []⟩ hfuel (by simp)

/-- Claim C4 witness: the concrete full-page mock stops at exactly 1000 runs
with `hasMore = true` and the safety message. -/
theorem fetchAll_ceiling_termination_witness :
    ∃ out, collectRunsModel client100 optsFetchAll 10 = some out ∧
      out.runs.length = 1000 ∧ out.hasMore = true ∧ safetyMsg ∈ out.progress :=
  fetchAll_ceiling_termination client100 optsFetchAll 10 rfl
    (fun _ => ⟨rfl, rfl, by simp [client100]⟩) (by omega)

end Inngest

